import Mathlib

/-!
Shallow embedding of the attachment-ingestion and payload-assembly core of
`apps/web/components/forms/send-email-form.tsx`, together with proofs of the
specification's testable properties.

Strings are modelled by Lean `String` (logically a list of characters);
JavaScript's optional string fields default to `""`, and truthiness of a
string is modelled by `≠ ""`, which agrees with JavaScript on strings.
-/

/-- Character-level predicate for the delimiters of the regex `[,;]` used by
`parseEmails`. -/
def isDelim (c : Char) : Bool := c == ',' || c == ';'

/-- Whitespace recognised by `String.prototype.trim` (restricted to the ASCII
whitespace characters, which suffices for the inputs considered here). -/
def isSpaceCh (c : Char) : Bool :=
  c == ' ' || c == '\t' || c == '\n' || c == '\r' || c == '\x0b' || c == '\x0c'

/-- `String.prototype.split(/[,;]/)` on the character list: splits into the
(possibly empty) segments between delimiter occurrences. -/
def splitDelim : List Char → List (List Char)
  | [] => [[]]
  | c :: cs =>
    match splitDelim cs with
    | [] => [[]]
    | s :: ss => if isDelim c then [] :: s :: ss else (c :: s) :: ss

/-- Drop leading whitespace characters. -/
def dropSpaces (l : List Char) : List Char := l.dropWhile isSpaceCh

/-- Drop trailing whitespace characters. -/
def trimEndChars (l : List Char) : List Char := (dropSpaces l.reverse).reverse

/-- `String.prototype.trim` on the character list: drop leading and trailing
whitespace. -/
def trimChars (l : List Char) : List Char := dropSpaces (trimEndChars l)

/-- `Array.prototype.join(",")` on character lists. -/
def joinComma : List (List Char) → List Char
  | [] => []
  | [p] => p
  | p :: ps => p ++ ',' :: joinComma ps

/-- `parseEmails` on the character list: split on `[,;]`, trim each entry,
drop empty entries, join with commas. -/
def parseEmailsChars (l : List Char) : List Char :=
  joinComma (((splitDelim l).map trimChars).filter (fun e => decide (0 < e.length)))

/-- `parseEmails` from `send-email-form.tsx`: normalises a comma/semicolon
separated recipient list to a trimmed, comma-joined list. -/
def parseEmails (s : String) : String := ⟨parseEmailsChars s.data⟩

/-- `pat` is a leading segment of the second list (helper for `includes`). -/
def listStartsWith : List Char → List Char → Bool
  | [], _ => true
  | _ :: _, [] => false
  | p :: ps, c :: cs => p == c && listStartsWith ps cs

/-- `String.prototype.includes` on character lists: `pat` occurs contiguously
somewhere in the list. -/
def listIncludes (pat : List Char) : List Char → Bool
  | [] => listStartsWith pat []
  | c :: cs => listStartsWith pat (c :: cs) || listIncludes pat cs

/-- `String.prototype.includes`. -/
def strIncludes (s pat : String) : Bool := listIncludes pat.data s.data

/-- `String.prototype.toLowerCase` (ASCII range, which covers the filenames
and prompts of the specification). -/
def toLowerStr (s : String) : String := ⟨s.data.map Char.toLower⟩

/-- `const MAX_TOTAL_SIZE = 150 * 1024 * 1024` from `send-email-form.tsx`.
The adjacent comment in the source reads "15MB total for all files", but the
constant itself is 150 MiB. -/
def MAX_TOTAL_SIZE : Nat := 150 * 1024 * 1024

/-- `ACCEPTED_FILE_TYPES` from `send-email-form.tsx`. -/
def ACCEPTED_FILE_TYPES : List String :=
  ["image/jpeg",
   "image/jpg",
   "image/png",
   "image/gif",
   "application/pdf",
   "application/msword",
   "application/vnd.openxmlformats-officedocument.wordprocessingml.document",
   "application/vnd.ms-excel",
   "application/vnd.openxmlformats-officedocument.spreadsheetml.sheet",
   "text/plain"]

/-- The `FileWithBase64` interface: an accepted attachment. `originalName`
is set from the file name at ingestion and never rewritten. -/
structure FileWithBase64 where
  name : String
  size : Nat
  type : String
  base64 : String
  originalName : String
  deriving Repr, DecidableEq

/-- The `HtmlImage` interface: an inline image of the registry. -/
structure HtmlImage where
  filename : String
  base64 : String
  originalName : String
  deriving Repr, DecidableEq

/-- A candidate `File` offered to `handleFileChange`, together with the
outcome of `convertToBase64` on it: `some b` models a successful read with
encoded text `b`, `none` models a `FileReader` failure. -/
structure CandidateFile where
  name : String
  size : Nat
  type : String
  encodeResult : Option String
  deriving Repr, DecidableEq

/-- The per-file rejection reports surfaced through `setAlertDialog`. -/
inductive IngestError where
  | QuotaExceeded (remaining : Int)
  | UnsupportedType
  | EncodingError
  deriving Repr, DecidableEq

/-- The mutable state threaded through one `handleFileChange` call: the
`files` React state, the local `currentTotalSize` counter, and the alert
events raised so far (file name paired with the rejection kind). -/
structure IngestState where
  files : List FileWithBase64
  currentTotalSize : Nat
  alerts : List (String × IngestError)
  deriving Repr, DecidableEq

/-- `getTotalFileSize` from `send-email-form.tsx`:
`files.reduce((total, file) => total + file.size, 0)`. -/
def getTotalFileSize (files : List FileWithBase64) : Nat :=
  files.foldl (fun total file => total + file.size) 0

/-- One iteration of the `for (const file of newFiles)` loop of
`handleFileChange`: first the total-size check (rejecting with the remaining
headroom), then the MIME-type check, then the encode step; only a successful
encode appends the file and commits its size. -/
def processOneFile (st : IngestState) (file : CandidateFile) : IngestState :=
  if MAX_TOTAL_SIZE < st.currentTotalSize + file.size then
    { st with alerts := st.alerts ++
        [(file.name, IngestError.QuotaExceeded ((MAX_TOTAL_SIZE : Int) - (st.currentTotalSize : Int)))] }
  else if !(ACCEPTED_FILE_TYPES.contains file.type) then
    { st with alerts := st.alerts ++ [(file.name, IngestError.UnsupportedType)] }
  else
    match file.encodeResult with
    | some b64 =>
      { st with
        files := st.files ++ [⟨file.name, file.size, file.type, b64, file.name⟩],
        currentTotalSize := st.currentTotalSize + file.size }
    | none => { st with alerts := st.alerts ++ [(file.name, IngestError.EncodingError)] }

/-- `handleFileChange` from `send-email-form.tsx`: seeds the counter with
`getTotalFileSize()` and folds the per-file loop over the batch. -/
def handleFileChange (files : List FileWithBase64) (newFiles : List CandidateFile) : IngestState :=
  newFiles.foldl processOneFile ⟨files, getTotalFileSize files, []⟩

/-- `Array.prototype.filter` with the element index, threading the running
index explicitly. -/
def filterWithIndex {α : Type} (p : α → Nat → Bool) : List α → Nat → List α
  | [], _ => []
  | x :: xs, i => if p x i then x :: filterWithIndex p xs (i + 1) else filterWithIndex p xs (i + 1)

/-- `Array.prototype.map` with the element index, threading the running
index explicitly. -/
def mapWithIndex {α : Type} (f : α → Nat → α) : List α → Nat → List α
  | [], _ => []
  | x :: xs, i => f x i :: mapWithIndex f xs (i + 1)

/-- `removeFile` from `send-email-form.tsx`:
`prev.filter((_, i) => i !== index)`. -/
def removeFile (files : List FileWithBase64) (index : Nat) : List FileWithBase64 :=
  filterWithIndex (fun _ i => i != index) files 0

/-- `removeHtmlImage` from `send-email-form.tsx`. -/
def removeHtmlImage (imgs : List HtmlImage) (index : Nat) : List HtmlImage :=
  filterWithIndex (fun _ i => i != index) imgs 0

/-- `updateAttachmentFilename` from `send-email-form.tsx`: rewrites only the
`name` field of the entry at `index`. -/
def updateAttachmentFilename (files : List FileWithBase64) (index : Nat) (newFilename : String) :
    List FileWithBase64 :=
  mapWithIndex (fun file i => if i == index then { file with name := newFilename } else file) files 0

/-- `updateImageFilename` from `send-email-form.tsx`: rewrites only the
`filename` field of the entry at `index`. -/
def updateImageFilename (imgs : List HtmlImage) (index : Nat) (newFilename : String) :
    List HtmlImage :=
  mapWithIndex (fun img i => if i == index then { img with filename := newFilename } else img) imgs 0

/-- The three values of the `emailType` radio group. -/
inductive EmailType where
  | text
  | html
  | autoGenerate
  deriving Repr, DecidableEq

/-- The validated form values consumed by `onSubmit`. Optional zod fields
default to `""`; `fromAddr` embeds the `from` field (renamed because `from`
is reserved in Lean). -/
structure FormValues where
  source : String
  fromAddr : String
  toAddr : String
  cc : String
  bcc : String
  subject : String
  emailType : EmailType
  textBody : String
  htmlBody : String
  autoPrompt : String
  templateId : String
  deriving Repr, DecidableEq

/-- A `{ filename, base64 }` pair of `additionalInfo.html_images` or
`additionalInfo.attachment_files`. -/
structure NamedBase64 where
  filename : String
  base64 : String
  deriving Repr, DecidableEq

/-- The inner `payload` object of `EmailPayload`; `Option` models presence
of the optional keys (`none` = key absent). -/
structure InnerPayload where
  fromAddr : String
  subject : String
  toAddr : String
  cc : Option String
  bcc : Option String
  html : Option String
  text : Option String
  deriving Repr, DecidableEq

/-- The `additionalInfo` object of `EmailPayload`; `template_id` is the
result of `parseInt` (`none` models `NaN`). -/
structure AdditionalInfo where
  template_id : Option Int
  isText : Bool
  html_images : Option (List NamedBase64)
  attachment_files : Option (List NamedBase64)
  deriving Repr, DecidableEq

/-- The assembled outbound payload (`EmailPayload` of `services/email.ts`). -/
structure EmailPayload where
  txnRefNo : String
  source : String
  payload : InnerPayload
  additionalInfo : AdditionalInfo
  deriving Repr, DecidableEq

/-- The decimal value of a leading run of ASCII digits, `none` when the run
is empty (helper for `parseInt`). -/
def leadingDigits (cs : List Char) : Option Nat :=
  let ds := cs.takeWhile Char.isDigit
  if ds.isEmpty then none
  else some (ds.foldl (fun n c => n * 10 + (c.toNat - 48)) 0)

/-- JavaScript `parseInt` in base 10: skip leading whitespace, take an
optional sign and the longest digit run; `none` models `NaN`. -/
def parseIntJs (s : String) : Option Int :=
  match s.data.dropWhile isSpaceCh with
  | '-' :: rest => (leadingDigits rest).map (fun n => -(n : Int))
  | '+' :: rest => (leadingDigits rest).map (fun n => (n : Int))
  | cs => (leadingDigits cs).map (fun n => (n : Int))

/-- `generateTxnRefNo` from `send-email-form.tsx`, with the `Date.now()`
clock reading passed in explicitly. -/
def generateTxnRefNo (now : Nat) : String := "Email-" ++ toString now

/-- `generateHtmlFromPrompt` from `send-email-form.tsx`: fixed skeleton,
then a header image slot if an image filename or the prompt mentions
"header" (case-insensitively), the prompt as the body paragraph, and a
footer slot symmetrically. Brace characters of the inline stylesheet are
written with `\x7b`/`\x7d` escapes. -/
def generateHtmlFromPrompt (prompt : String) (images : List HtmlImage) : String :=
  let html0 := "<!DOCTYPE html><html lang=\"en\"><head><meta charset=\"UTF-8\"><meta name=\"viewport\" content=\"width=device-width, initial-scale=1\"><style>body\x7bfont-family:Arial,sans-serif;margin:0;padding:0;background:#f4f4f4\x7d.container\x7bmax-width:600px;margin:0 auto;background:#fff\x7d.header\x7bwidth:100%;height:auto\x7d.content\x7bpadding:20px\x7d.footer\x7bwidth:100%;height:auto\x7d</style></head><body><div class=\"container\">"
  let headerImage := images.find? (fun img => strIncludes (toLowerStr img.filename) "header")
  let html1 :=
    if headerImage.isSome || strIncludes (toLowerStr prompt) "header" then
      let imgRef := match headerImage with
        | some img => "cid:img@" ++ img.filename
        | none => "cid:img@header.png"
      html0 ++ "<img class=\"header\" src=\"" ++ imgRef ++ "\" alt=\"Header\" />"
    else html0
  let html2 := html1 ++ "<div class=\"content\"><p>" ++ prompt ++ "</p></div>"
  let footerImage := images.find? (fun img => strIncludes (toLowerStr img.filename) "footer")
  let html3 :=
    if footerImage.isSome || strIncludes (toLowerStr prompt) "footer" then
      let imgRef := match footerImage with
        | some img => "cid:img@" ++ img.filename
        | none => "cid:img@footer.png"
      html2 ++ "<img class=\"footer\" src=\"" ++ imgRef ++ "\" alt=\"Footer\" />"
    else html2
  html3 ++ "</div></body></html>"

/-- `onSubmit` from `send-email-form.tsx` as a pure payload assembler (the
`Date.now()` reading is the `now` argument). The initial `cc`/`bcc`
assignments of the object literal are immediately superseded by the
`if(values.cc) ... else delete` logic, whose net effect is modelled
directly: the key is kept (with the parsed value) exactly when the raw
input string is truthy, i.e. non-empty. -/
def onSubmit (now : Nat) (values : FormValues) (files : List FileWithBase64)
    (htmlImages : List HtmlImage) : EmailPayload :=
  let isText := values.emailType == EmailType.text
  let isAutoGenerate := values.emailType == EmailType.autoGenerate
  let base : EmailPayload :=
    { txnRefNo := generateTxnRefNo now
      source := values.source
      payload :=
        { fromAddr := values.fromAddr
          subject := values.subject
          toAddr := parseEmails values.toAddr
          cc := if values.cc != "" then some (parseEmails values.cc) else none
          bcc := if values.bcc != "" then some (parseEmails values.bcc) else none
          html := none
          text := none }
      additionalInfo :=
        { template_id := parseIntJs (if values.templateId != "" then values.templateId else "1")
          isText := isText
          html_images := none
          attachment_files := none } }
  if isText then
    { base with payload := { base.payload with html := some values.htmlBody, text := some values.textBody } }
  else if isAutoGenerate then
    let generatedHtml := generateHtmlFromPrompt values.autoPrompt htmlImages
    let p1 := { base with
      payload := { base.payload with html := some generatedHtml }
      additionalInfo := { base.additionalInfo with isText := false } }
    let p2 :=
      if 0 < htmlImages.length then
        { p1 with additionalInfo := { p1.additionalInfo with
            html_images := some (htmlImages.map (fun img => ⟨img.filename, img.base64⟩)) } }
      else p1
    if 0 < files.length then
      { p2 with additionalInfo := { p2.additionalInfo with
          attachment_files := some (files.map (fun f => ⟨f.name, f.base64⟩)) } }
    else p2
  else
    let p1 := { base with
      payload := { base.payload with html := some values.htmlBody }
      additionalInfo := { base.additionalInfo with isText := false } }
    let p2 :=
      if 0 < htmlImages.length then
        { p1 with additionalInfo := { p1.additionalInfo with
            html_images := some (htmlImages.map (fun img => ⟨img.filename, img.base64⟩)) } }
      else p1
    if 0 < files.length then
      { p2 with additionalInfo := { p2.additionalInfo with
          attachment_files := some (files.map (fun f => ⟨f.name, f.base64⟩)) } }
    else p2

/-- The user-driven mutations of an ingestion session's attachment list:
adding a batch of candidate files, removing at an index, renaming at an
index. -/
inductive SessionOp where
  | addBatch (batch : List CandidateFile)
  | removeAt (index : Nat)
  | renameAt (index : Nat) (newName : String)
  deriving Repr

/-- Apply one session operation to the attachment list. -/
def applyOp (files : List FileWithBase64) : SessionOp → List FileWithBase64
  | SessionOp.addBatch batch => (handleFileChange files batch).files
  | SessionOp.removeAt i => removeFile files i
  | SessionOp.renameAt i n => updateAttachmentFilename files i n

/-- Apply a sequence of session operations starting from the empty session. -/
def applyOps (ops : List SessionOp) : List FileWithBase64 :=
  ops.foldl applyOp []

/-! ### Lemmas about `splitDelim`, `trimChars` and `joinComma` -/

theorem splitDelim_cons (a : Char) (as : List Char) :
    splitDelim (a :: as) =
      match splitDelim as with
      | [] => [[]]
      | s :: ss => if isDelim a then [] :: s :: ss else (a :: s) :: ss := rfl

theorem splitDelim_ne_nil (l : List Char) : splitDelim l ≠ [] := by
  cases l with
  | nil => simp [splitDelim]
  | cons c cs =>
    rw [splitDelim_cons]
    cases h : splitDelim cs with
    | nil => simp
    | cons s ss => by_cases hd : isDelim c <;> simp [hd]

theorem mem_splitDelim_no_delim :
    ∀ (l : List Char) (seg : List Char), seg ∈ splitDelim l → ∀ c ∈ seg, isDelim c = false := by
  intro l
  induction l with
  | nil =>
    intro seg hseg c hc
    simp [splitDelim] at hseg
    subst hseg
    simp at hc
  | cons a as ih =>
    intro seg hseg c hc
    rw [splitDelim_cons] at hseg
    cases h : splitDelim as with
    | nil => exact absurd h (splitDelim_ne_nil as)
    | cons s ss =>
      rw [h] at hseg
      by_cases hd : isDelim a
      · simp only [hd, if_true] at hseg
        rcases List.mem_cons.mp hseg with rfl | hseg2
        · simp at hc
        · exact ih seg (h ▸ hseg2) c hc
      · simp only [hd, if_false] at hseg
        rcases List.mem_cons.mp hseg with rfl | hseg2
        · rcases List.mem_cons.mp hc with rfl | hc2
          · simpa using hd
          · exact ih s (h ▸ List.mem_cons_self s ss) c hc2
        · exact ih seg (h ▸ List.mem_cons_of_mem s hseg2) c hc

theorem splitDelim_no_delim (l : List Char) (h : ∀ c ∈ l, isDelim c = false) :
    splitDelim l = [l] := by
  induction l with
  | nil => rfl
  | cons a as ih =>
    have ha : isDelim a = false := h a (List.mem_cons_self a as)
    have has : ∀ c ∈ as, isDelim c = false := fun c hc => h c (List.mem_cons_of_mem a hc)
    rw [splitDelim_cons, ih has]
    simp [ha]

theorem splitDelim_append (p : List Char) (d : Char) (rest : List Char)
    (hp : ∀ c ∈ p, isDelim c = false) (hd : isDelim d = true) :
    splitDelim (p ++ d :: rest) = p :: splitDelim rest := by
  induction p with
  | nil =>
    rw [List.nil_append, splitDelim_cons]
    cases h : splitDelim rest with
    | nil => exact absurd h (splitDelim_ne_nil rest)
    | cons s ss => simp [hd]
  | cons a as ih =>
    have ha : isDelim a = false := hp a (List.mem_cons_self a _)
    have has : ∀ c ∈ as, isDelim c = false := fun c hc => hp c (List.mem_cons_of_mem a hc)
    rw [List.cons_append, splitDelim_cons, ih has]
    simp [ha]

theorem joinComma_cons_cons (p q : List Char) (ps : List (List Char)) :
    joinComma (p :: q :: ps) = p ++ ',' :: joinComma (q :: ps) := rfl

/-- "the head, if any, is not whitespace" -/
def headNotSpace : List Char → Prop
  | [] => True
  | c :: _ => isSpaceCh c = false

theorem length_dropSpaces_le (l : List Char) : (dropSpaces l).length ≤ l.length := by
  induction l with
  | nil => simp [dropSpaces]
  | cons c cs ih =>
    simp only [dropSpaces, List.dropWhile_cons]
    by_cases h : isSpaceCh c
    · simp only [h, if_true]
      exact Nat.le_trans ih (Nat.le_succ _)
    · simp [h]

theorem headNotSpace_dropSpaces (l : List Char) : headNotSpace (dropSpaces l) := by
  induction l with
  | nil => trivial
  | cons c cs ih =>
    by_cases h : isSpaceCh c
    · simpa [dropSpaces, List.dropWhile_cons, h] using ih
    · have hc : isSpaceCh c = false := by simpa using h
      have : dropSpaces (c :: cs) = c :: cs := by
        simp [dropSpaces, List.dropWhile_cons, hc]
      rw [this]
      exact hc

theorem dropSpaces_of_headNotSpace (l : List Char) (h : headNotSpace l) :
    dropSpaces l = l := by
  cases l with
  | nil => rfl
  | cons c cs =>
    have hc : isSpaceCh c = false := h
    simp [dropSpaces, List.dropWhile_cons, hc]

theorem dropSpaces_idem (l : List Char) : dropSpaces (dropSpaces l) = dropSpaces l :=
  dropSpaces_of_headNotSpace _ (headNotSpace_dropSpaces l)

theorem headNotSpace_of_dropSpaces_eq (l : List Char) (h : dropSpaces l = l) :
    headNotSpace l := by
  cases l with
  | nil => trivial
  | cons c cs =>
    by_cases hc : isSpaceCh c
    · exfalso
      have h2 : dropSpaces cs = c :: cs := by
        simpa [dropSpaces, List.dropWhile_cons, hc] using h
      have := length_dropSpaces_le cs
      rw [h2] at this
      simp at this
    · simpa using hc

theorem headNotSpace_append_left (a b : List Char) (h : headNotSpace (a ++ b)) :
    headNotSpace a := by
  cases a with
  | nil => trivial
  | cons c cs => exact h

theorem mem_dropSpaces (c : Char) (l : List Char) (h : c ∈ dropSpaces l) : c ∈ l := by
  have hdec : l.takeWhile isSpaceCh ++ dropSpaces l = l := List.takeWhile_append_dropWhile isSpaceCh _
  rw [← hdec]
  exact List.mem_append_right _ h

theorem mem_trimEndChars (c : Char) (l : List Char) (h : c ∈ trimEndChars l) : c ∈ l := by
  unfold trimEndChars at h
  rw [List.mem_reverse] at h
  have := mem_dropSpaces c l.reverse h
  rwa [List.mem_reverse] at this

theorem mem_trimChars (c : Char) (l : List Char) (h : c ∈ trimChars l) : c ∈ l :=
  mem_trimEndChars c l (mem_dropSpaces c _ h)

theorem reverse_trimEndChars (l : List Char) :
    (trimEndChars l).reverse = dropSpaces l.reverse := by
  simp [trimEndChars]

theorem trimEndChars_dropSpaces (z : List Char) (hz : dropSpaces z.reverse = z.reverse) :
    trimEndChars (dropSpaces z) = dropSpaces z := by
  unfold trimEndChars
  suffices h : dropSpaces (dropSpaces z).reverse = (dropSpaces z).reverse by
    rw [h, List.reverse_reverse]
  have hdec : z.takeWhile isSpaceCh ++ dropSpaces z = z := List.takeWhile_append_dropWhile isSpaceCh _
  have hrev : z.reverse = (dropSpaces z).reverse ++ (z.takeWhile isSpaceCh).reverse := by
    conv_lhs => rw [← hdec]
    rw [List.reverse_append]
  have hok : headNotSpace z.reverse := headNotSpace_of_dropSpaces_eq _ hz
  rw [hrev] at hok
  exact dropSpaces_of_headNotSpace _ (headNotSpace_append_left _ _ hok)

theorem trimChars_idem (l : List Char) : trimChars (trimChars l) = trimChars l := by
  unfold trimChars
  have hz : dropSpaces (trimEndChars l).reverse = (trimEndChars l).reverse := by
    rw [reverse_trimEndChars]
    exact dropSpaces_idem _
  rw [trimEndChars_dropSpaces (trimEndChars l) hz, dropSpaces_idem]

theorem splitDelim_joinComma :
    ∀ (parts : List (List Char)), parts ≠ [] →
      (∀ p ∈ parts, ∀ c ∈ p, isDelim c = false) →
      splitDelim (joinComma parts) = parts := by
  intro parts
  induction parts with
  | nil => intro h; exact absurd rfl h
  | cons p ps ih =>
    intro _ hnd
    cases ps with
    | nil =>
      show splitDelim (joinComma [p]) = [p]
      rw [show joinComma [p] = p from rfl]
      exact splitDelim_no_delim p (hnd p (List.mem_cons_self p _))
    | cons q qs =>
      rw [joinComma_cons_cons]
      rw [splitDelim_append p ',' (joinComma (q :: qs)) (hnd p (List.mem_cons_self p _)) (by decide)]
      rw [ih (by simp) (fun r hr => hnd r (List.mem_cons_of_mem p hr))]

theorem parseEmailsChars_joinComma (parts : List (List Char))
    (hnd : ∀ p ∈ parts, ∀ c ∈ p, isDelim c = false)
    (htrim : ∀ p ∈ parts, trimChars p = p)
    (hne : ∀ p ∈ parts, p ≠ []) :
    parseEmailsChars (joinComma parts) = joinComma parts := by
  cases parts with
  | nil => rfl
  | cons p ps =>
    unfold parseEmailsChars
    rw [splitDelim_joinComma (p :: ps) (by simp) hnd]
    have hmap : (p :: ps).map trimChars = p :: ps := by
      calc (p :: ps).map trimChars = (p :: ps).map id := List.map_congr_left htrim
        _ = p :: ps := List.map_id _
    rw [hmap]
    have hfil : (p :: ps).filter (fun e => decide (0 < e.length)) = p :: ps := by
      rw [List.filter_eq_self]
      intro a ha
      have : a ≠ [] := hne a ha
      simpa [List.length_pos] using this
    rw [hfil]

theorem parseEmailsChars_idem (l : List Char) :
    parseEmailsChars (parseEmailsChars l) = parseEmailsChars l := by
  have hform : parseEmailsChars l =
      joinComma (((splitDelim l).map trimChars).filter (fun e => decide (0 < e.length))) := rfl
  rw [hform]
  apply parseEmailsChars_joinComma
  · intro p hp c hc
    obtain ⟨seg, hseg, rfl⟩ := List.mem_map.mp (List.mem_of_mem_filter hp)
    exact mem_splitDelim_no_delim l seg hseg c (mem_trimChars c seg hc)
  · intro p hp
    obtain ⟨seg, hseg, rfl⟩ := List.mem_map.mp (List.mem_of_mem_filter hp)
    exact trimChars_idem seg
  · intro p hp
    have hfp := List.of_mem_filter hp
    intro hnil
    subst hnil
    simp at hfp

/-! ### Lemmas about the indexed filter/map helpers and the size total -/

theorem filterWithIndex_keepAll {α : Type} (l : List α) :
    ∀ (n m : Nat), m < n → filterWithIndex (fun _ i => i != m) l n = l := by
  induction l with
  | nil => intro n m _; rfl
  | cons x xs ih =>
    intro n m hmn
    have hne : (n != m) = true := by simp; omega
    simp only [filterWithIndex, hne, if_true]
    rw [ih (n + 1) m (Nat.lt_succ_of_lt hmn)]

theorem filterWithIndex_remove {α : Type} (l : List α) :
    ∀ (n k : Nat), filterWithIndex (fun _ i => i != (n + k)) l n =
      l.take k ++ l.drop (k + 1) := by
  induction l with
  | nil => intro n k; simp [filterWithIndex]
  | cons x xs ih =>
    intro n k
    cases k with
    | zero =>
      have heq : (n != n + 0) = false := by simp
      simp only [filterWithIndex, heq, if_false]
      rw [filterWithIndex_keepAll xs (n + 1) (n + 0) (by omega)]
      simp
    | succ k =>
      have hne : (n != n + (k + 1)) = true := by simp
      simp only [filterWithIndex, hne, if_true]
      have harg : n + (k + 1) = (n + 1) + k := by omega
      rw [harg, ih (n + 1) k]
      simp

theorem removeFile_eq (files : List FileWithBase64) (i : Nat) :
    removeFile files i = files.take i ++ files.drop (i + 1) := by
  have := filterWithIndex_remove files 0 i
  simpa [removeFile] using this

theorem mapWithIndex_keepAll {α : Type} (g : α → α) (l : List α) :
    ∀ (n m : Nat), m < n →
      mapWithIndex (fun x i => if i == m then g x else x) l n = l := by
  induction l with
  | nil => intro n m _; rfl
  | cons x xs ih =>
    intro n m hmn
    have hne : (n == m) = false := by simp; omega
    simp only [mapWithIndex, hne]
    rw [ih (n + 1) m (Nat.lt_succ_of_lt hmn)]
    simp

theorem mapWithIndex_update {α : Type} (g : α → α) (l : List α) :
    ∀ (n k : Nat) (h : k < l.length),
      mapWithIndex (fun x i => if i == (n + k) then g x else x) l n =
        l.take k ++ g l[k] :: l.drop (k + 1) := by
  induction l with
  | nil => intro n k h; simp at h
  | cons x xs ih =>
    intro n k h
    cases k with
    | zero =>
      have heq : (n == n + 0) = true := by simp
      simp only [mapWithIndex, heq, if_true]
      rw [mapWithIndex_keepAll g xs (n + 1) (n + 0) (by omega)]
      simp
    | succ k =>
      have hne : (n == n + (k + 1)) = false := by simp
      simp only [mapWithIndex, hne]
      have harg : n + (k + 1) = (n + 1) + k := by omega
      have hk : k < xs.length := by simpa using Nat.lt_of_succ_lt_succ h
      rw [harg, ih (n + 1) k hk]
      simp

theorem updateAttachmentFilename_eq (files : List FileWithBase64) (i : Nat)
    (newName : String) (h : i < files.length) :
    updateAttachmentFilename files i newName =
      files.take i ++ { files.get ⟨i, h⟩ with name := newName } :: files.drop (i + 1) := by
  have := mapWithIndex_update (fun f : FileWithBase64 => { f with name := newName }) files 0 i h
  simpa [updateAttachmentFilename] using this

theorem updateImageFilename_eq (imgs : List HtmlImage) (i : Nat)
    (newName : String) (h : i < imgs.length) :
    updateImageFilename imgs i newName =
      imgs.take i ++ { imgs.get ⟨i, h⟩ with filename := newName } :: imgs.drop (i + 1) := by
  have := mapWithIndex_update (fun f : HtmlImage => { f with filename := newName }) imgs 0 i h
  simpa [updateImageFilename] using this

theorem getTotalFileSize_foldl (l : List FileWithBase64) :
    ∀ a : Nat, l.foldl (fun total file => total + file.size) a = a + getTotalFileSize l := by
  induction l with
  | nil => intro a; simp [getTotalFileSize]
  | cons x xs ih =>
    intro a
    simp only [getTotalFileSize, List.foldl_cons]
    rw [ih (a + x.size), ih (0 + x.size)]
    omega

theorem getTotalFileSize_cons (x : FileWithBase64) (xs : List FileWithBase64) :
    getTotalFileSize (x :: xs) = x.size + getTotalFileSize xs := by
  show (x :: xs).foldl (fun total file => total + file.size) 0 = _
  rw [List.foldl_cons, getTotalFileSize_foldl]
  omega

theorem getTotalFileSize_append (a b : List FileWithBase64) :
    getTotalFileSize (a ++ b) = getTotalFileSize a + getTotalFileSize b := by
  show (a ++ b).foldl (fun total file => total + file.size) 0 = _
  rw [List.foldl_append, getTotalFileSize_foldl]
  rfl

theorem getTotalFileSize_removeFile (files : List FileWithBase64) (i : Nat)
    (h : i < files.length) :
    getTotalFileSize (removeFile files i) + files[i].size = getTotalFileSize files := by
  rw [removeFile_eq]
  conv_rhs => rw [← List.take_append_drop i files]
  rw [List.drop_eq_getElem_cons h]
  rw [getTotalFileSize_append, getTotalFileSize_append, getTotalFileSize_cons]
  omega

theorem getTotalFileSize_take_drop_le (files : List FileWithBase64) (i : Nat) :
    getTotalFileSize (files.take i ++ files.drop (i + 1)) ≤ getTotalFileSize files := by
  induction files generalizing i with
  | nil => simp
  | cons x xs ih =>
    cases i with
    | zero =>
      simp only [List.take_zero, List.nil_append, List.drop_succ_cons, List.drop_zero]
      rw [getTotalFileSize_cons]
      omega
    | succ i =>
      simp only [List.take_succ_cons, List.cons_append, List.drop_succ_cons]
      rw [getTotalFileSize_cons, getTotalFileSize_cons]
      have := ih i
      omega

theorem getTotalFileSize_mapWithIndex (g : FileWithBase64 → FileWithBase64)
    (hg : ∀ x, (g x).size = x.size) (l : List FileWithBase64) :
    ∀ (n m : Nat),
      getTotalFileSize (mapWithIndex (fun x i => if i == m then g x else x) l n) =
        getTotalFileSize l := by
  induction l with
  | nil => intro n m; rfl
  | cons x xs ih =>
    intro n m
    simp only [mapWithIndex]
    rw [getTotalFileSize_cons, getTotalFileSize_cons, ih (n + 1) m]
    by_cases h : (n == m) = true
    · simp [h, hg]
    · simp [Bool.eq_false_iff.mpr h]

/-! ### Lemmas about `processOneFile`, `handleFileChange` and the session ops -/

theorem getTotalFileSize_nil : getTotalFileSize [] = 0 := rfl

theorem processOneFile_quota (st : IngestState) (f : CandidateFile)
    (h : MAX_TOTAL_SIZE < st.currentTotalSize + f.size) :
    processOneFile st f =
      { st with alerts := st.alerts ++
          [(f.name, IngestError.QuotaExceeded
              ((MAX_TOTAL_SIZE : Int) - (st.currentTotalSize : Int)))] } := by
  unfold processOneFile
  rw [if_pos h]

theorem processOneFile_unsupported (st : IngestState) (f : CandidateFile)
    (h1 : st.currentTotalSize + f.size ≤ MAX_TOTAL_SIZE)
    (h2 : f.type ∉ ACCEPTED_FILE_TYPES) :
    processOneFile st f =
      { st with alerts := st.alerts ++ [(f.name, IngestError.UnsupportedType)] } := by
  unfold processOneFile
  rw [if_neg (by omega), if_pos (by simpa using h2)]

theorem processOneFile_encodeFail (st : IngestState) (f : CandidateFile)
    (h1 : st.currentTotalSize + f.size ≤ MAX_TOTAL_SIZE)
    (h2 : f.type ∈ ACCEPTED_FILE_TYPES)
    (h3 : f.encodeResult = none) :
    processOneFile st f =
      { st with alerts := st.alerts ++ [(f.name, IngestError.EncodingError)] } := by
  unfold processOneFile
  rw [if_neg (by omega), if_neg (by simpa using h2), h3]

theorem processOneFile_accept (st : IngestState) (f : CandidateFile) (b64 : String)
    (h1 : st.currentTotalSize + f.size ≤ MAX_TOTAL_SIZE)
    (h2 : f.type ∈ ACCEPTED_FILE_TYPES)
    (h3 : f.encodeResult = some b64) :
    processOneFile st f =
      { st with
        files := st.files ++ [⟨f.name, f.size, f.type, b64, f.name⟩],
        currentTotalSize := st.currentTotalSize + f.size } := by
  unfold processOneFile
  rw [if_neg (by omega), if_neg (by simpa using h2), h3]

theorem processOneFile_total_eq (st : IngestState) (f : CandidateFile)
    (h : getTotalFileSize st.files = st.currentTotalSize) :
    getTotalFileSize (processOneFile st f).files =
      (processOneFile st f).currentTotalSize := by
  by_cases h1 : MAX_TOTAL_SIZE < st.currentTotalSize + f.size
  · simp [processOneFile, h1, h]
  · by_cases h2 : f.type ∈ ACCEPTED_FILE_TYPES
    · cases henc : f.encodeResult with
      | some b64 =>
        simp [processOneFile, h1, h2, henc, getTotalFileSize_append,
          getTotalFileSize_cons, getTotalFileSize_nil, h]
      | none => simp [processOneFile, h1, h2, henc, h]
    · simp [processOneFile, h1, h2, h]

theorem processOneFile_le (st : IngestState) (f : CandidateFile)
    (h : st.currentTotalSize ≤ MAX_TOTAL_SIZE) :
    (processOneFile st f).currentTotalSize ≤ MAX_TOTAL_SIZE := by
  by_cases h1 : MAX_TOTAL_SIZE < st.currentTotalSize + f.size
  · simpa [processOneFile, h1] using h
  · by_cases h2 : f.type ∈ ACCEPTED_FILE_TYPES
    · cases henc : f.encodeResult with
      | some b64 => simp [processOneFile, h1, h2, henc]; omega
      | none => simpa [processOneFile, h1, h2, henc] using h
    · simpa [processOneFile, h1, h2] using h

theorem foldl_processOneFile_inv (batch : List CandidateFile) :
    ∀ st : IngestState, getTotalFileSize st.files = st.currentTotalSize →
      st.currentTotalSize ≤ MAX_TOTAL_SIZE →
      getTotalFileSize (batch.foldl processOneFile st).files =
          (batch.foldl processOneFile st).currentTotalSize ∧
        (batch.foldl processOneFile st).currentTotalSize ≤ MAX_TOTAL_SIZE := by
  induction batch with
  | nil => intro st h1 h2; exact ⟨h1, h2⟩
  | cons f fs ih =>
    intro st h1 h2
    exact ih (processOneFile st f) (processOneFile_total_eq st f h1)
      (processOneFile_le st f h2)

theorem handleFileChange_le (files : List FileWithBase64) (batch : List CandidateFile)
    (h : getTotalFileSize files ≤ MAX_TOTAL_SIZE) :
    getTotalFileSize (handleFileChange files batch).files ≤ MAX_TOTAL_SIZE := by
  have hinv := foldl_processOneFile_inv batch ⟨files, getTotalFileSize files, []⟩ rfl h
  unfold handleFileChange
  omega

theorem applyOp_le (files : List FileWithBase64) (op : SessionOp)
    (h : getTotalFileSize files ≤ MAX_TOTAL_SIZE) :
    getTotalFileSize (applyOp files op) ≤ MAX_TOTAL_SIZE := by
  cases op with
  | addBatch batch => exact handleFileChange_le files batch h
  | removeAt i =>
    show getTotalFileSize (removeFile files i) ≤ MAX_TOTAL_SIZE
    rw [removeFile_eq]
    have := getTotalFileSize_take_drop_le files i
    omega
  | renameAt i n =>
    show getTotalFileSize (updateAttachmentFilename files i n) ≤ MAX_TOTAL_SIZE
    unfold updateAttachmentFilename
    rw [getTotalFileSize_mapWithIndex (fun file => { file with name := n })
      (fun x => rfl) files 0 i]
    exact h

theorem processOneFile_congr (st₁ st₂ : IngestState) (f : CandidateFile)
    (hf : st₁.files = st₂.files) (ht : st₁.currentTotalSize = st₂.currentTotalSize) :
    (processOneFile st₁ f).files = (processOneFile st₂ f).files ∧
      (processOneFile st₁ f).currentTotalSize = (processOneFile st₂ f).currentTotalSize := by
  by_cases h1 : MAX_TOTAL_SIZE < st₁.currentTotalSize + f.size
  · have h1b : MAX_TOTAL_SIZE < st₂.currentTotalSize + f.size := by omega
    simp [processOneFile, h1, h1b, hf, ht]
  · have h1b : ¬ MAX_TOTAL_SIZE < st₂.currentTotalSize + f.size := by omega
    by_cases h2 : f.type ∈ ACCEPTED_FILE_TYPES
    · cases henc : f.encodeResult with
      | some b64 => simp [processOneFile, h1, h1b, h2, henc, hf, ht]
      | none => simp [processOneFile, h1, h1b, h2, henc, hf, ht]
    · simp [processOneFile, h1, h1b, h2, hf, ht]

theorem foldl_processOneFile_congr (batch : List CandidateFile) :
    ∀ (st₁ st₂ : IngestState), st₁.files = st₂.files →
      st₁.currentTotalSize = st₂.currentTotalSize →
      (batch.foldl processOneFile st₁).files = (batch.foldl processOneFile st₂).files ∧
        (batch.foldl processOneFile st₁).currentTotalSize =
          (batch.foldl processOneFile st₂).currentTotalSize := by
  induction batch with
  | nil => intro st₁ st₂ hf ht; exact ⟨hf, ht⟩
  | cons f fs ih =>
    intro st₁ st₂ hf ht
    have hstep := processOneFile_congr st₁ st₂ f hf ht
    exact ih (processOneFile st₁ f) (processOneFile st₂ f) hstep.1 hstep.2

theorem processOneFile_rejected (st : IngestState) (f : CandidateFile)
    (h : MAX_TOTAL_SIZE < st.currentTotalSize + f.size ∨
         ACCEPTED_FILE_TYPES.contains f.type = false ∨ f.encodeResult = none) :
    (processOneFile st f).files = st.files ∧
      (processOneFile st f).currentTotalSize = st.currentTotalSize := by
  by_cases h1 : MAX_TOTAL_SIZE < st.currentTotalSize + f.size
  · rw [processOneFile_quota st f h1]
    exact ⟨rfl, rfl⟩
  · rcases h with h | h | h
    · exact absurd h h1
    · rw [processOneFile_unsupported st f (by omega) (by simpa using h)]
      exact ⟨rfl, rfl⟩
    · by_cases h2 : f.type ∈ ACCEPTED_FILE_TYPES
      · rw [processOneFile_encodeFail st f (by omega) h2 h]
        exact ⟨rfl, rfl⟩
      · rw [processOneFile_unsupported st f (by omega) h2]
        exact ⟨rfl, rfl⟩

/-! ### Field equations for the assembled payload -/

theorem emailType_beq_text_text : (EmailType.text == EmailType.text) = true := rfl

theorem emailType_beq_html_text : (EmailType.html == EmailType.text) = false := rfl

theorem emailType_beq_auto_text : (EmailType.autoGenerate == EmailType.text) = false := rfl

theorem emailType_beq_text_auto : (EmailType.text == EmailType.autoGenerate) = false := rfl

theorem emailType_beq_html_auto : (EmailType.html == EmailType.autoGenerate) = false := rfl

theorem emailType_beq_auto_auto : (EmailType.autoGenerate == EmailType.autoGenerate) = true := rfl

theorem onSubmit_cc (now : Nat) (v : FormValues) (files : List FileWithBase64)
    (imgs : List HtmlImage) :
    (onSubmit now v files imgs).payload.cc =
      if v.cc != "" then some (parseEmails v.cc) else none := by
  cases hmode : v.emailType <;>
    by_cases hi : 0 < imgs.length <;>
      by_cases hf2 : 0 < files.length <;>
        simp [onSubmit, hmode, hi, hf2, emailType_beq_text_text, emailType_beq_html_text,
          emailType_beq_auto_text, emailType_beq_text_auto, emailType_beq_html_auto,
          emailType_beq_auto_auto]

theorem onSubmit_bcc (now : Nat) (v : FormValues) (files : List FileWithBase64)
    (imgs : List HtmlImage) :
    (onSubmit now v files imgs).payload.bcc =
      if v.bcc != "" then some (parseEmails v.bcc) else none := by
  cases hmode : v.emailType <;>
    by_cases hi : 0 < imgs.length <;>
      by_cases hf2 : 0 < files.length <;>
        simp [onSubmit, hmode, hi, hf2, emailType_beq_text_text, emailType_beq_html_text,
          emailType_beq_auto_text, emailType_beq_text_auto, emailType_beq_html_auto,
          emailType_beq_auto_auto]

theorem onSubmit_isText (now : Nat) (v : FormValues) (files : List FileWithBase64)
    (imgs : List HtmlImage) :
    (onSubmit now v files imgs).additionalInfo.isText = (v.emailType == EmailType.text) := by
  cases hmode : v.emailType <;>
    by_cases hi : 0 < imgs.length <;>
      by_cases hf2 : 0 < files.length <;>
        simp [onSubmit, hmode, hi, hf2, emailType_beq_text_text, emailType_beq_html_text,
          emailType_beq_auto_text, emailType_beq_text_auto, emailType_beq_html_auto,
          emailType_beq_auto_auto]

theorem onSubmit_html_images (now : Nat) (v : FormValues) (files : List FileWithBase64)
    (imgs : List HtmlImage) :
    (onSubmit now v files imgs).additionalInfo.html_images =
      if v.emailType == EmailType.text then none
      else if 0 < imgs.length then
        some (imgs.map (fun img => ⟨img.filename, img.base64⟩))
      else none := by
  cases hmode : v.emailType <;>
    by_cases hi : 0 < imgs.length <;>
      by_cases hf2 : 0 < files.length <;>
        simp [onSubmit, hmode, hi, hf2, emailType_beq_text_text, emailType_beq_html_text,
          emailType_beq_auto_text, emailType_beq_text_auto, emailType_beq_html_auto,
          emailType_beq_auto_auto]

theorem onSubmit_attachment_files (now : Nat) (v : FormValues) (files : List FileWithBase64)
    (imgs : List HtmlImage) :
    (onSubmit now v files imgs).additionalInfo.attachment_files =
      if v.emailType == EmailType.text then none
      else if 0 < files.length then
        some (files.map (fun f => ⟨f.name, f.base64⟩))
      else none := by
  cases hmode : v.emailType <;>
    by_cases hi : 0 < imgs.length <;>
      by_cases hf2 : 0 < files.length <;>
        simp [onSubmit, hmode, hi, hf2, emailType_beq_text_text, emailType_beq_html_text,
          emailType_beq_auto_text, emailType_beq_text_auto, emailType_beq_html_auto,
          emailType_beq_auto_auto]

/-! ### The claims -/

/-- The 10 MB then 6 MB ingestion batch of the specification's quota
scenario, both of allow-listed MIME type and with succeeding encodes. -/
def c1Batch : List CandidateFile :=
  [⟨"a.pdf", 10 * 1024 * 1024, "application/pdf", some "QUFB"⟩,
   ⟨"b.pdf", 6 * 1024 * 1024, "application/pdf", some "QkJC"⟩]

/-- Claim C1: the specification demands that, against a 15 MB cap, the 10 MB
file is accepted and the 6 MB file is rejected with 5 MB of remaining
headroom. The code's cap constant is `150 * 1024 * 1024` (150 MiB, despite
its "15MB" comment), so both files are accepted: the session ends with two
attachments, a 16 MiB running total and no rejection report. -/
theorem c1_code_accepts_both_files :
    (handleFileChange [] c1Batch).files.length = 2 ∧
      (handleFileChange [] c1Batch).currentTotalSize = 16 * 1024 * 1024 ∧
      (handleFileChange [] c1Batch).alerts = [] := by
  decide

/-- An over-budget candidate whose MIME type is also not on the allow-list. -/
def c2File : CandidateFile :=
  ⟨"big.zip", 150 * 1024 * 1024 + 1, "application/zip", some "QklH"⟩

/-- Claim C2, counterexample: `big.zip` is not allow-listed and also exceeds
the whole budget, yet the report raised for it is `QuotaExceeded`, not the
`UnsupportedType` the claim demands, because the code checks the size budget
first. -/
theorem c2_counterexample :
    c2File.type ∉ ACCEPTED_FILE_TYPES ∧
      (processOneFile ⟨[], 0, []⟩ c2File).alerts =
        [("big.zip", IngestError.QuotaExceeded (150 * 1024 * 1024))] ∧
      (processOneFile ⟨[], 0, []⟩ c2File).alerts ≠
        [("big.zip", IngestError.UnsupportedType)] := by
  decide

/-- Claim C2, amended: for every candidate file the size budget is checked
before the MIME type: an over-budget file is rejected with `QuotaExceeded`
(reporting the remaining headroom) even when its type is not allow-listed,
and the MIME check is only reached for files within budget, where a
non-allow-listed type is rejected with `UnsupportedType`. -/
theorem c2_budget_checked_before_type (st : IngestState) (f : CandidateFile) :
    (MAX_TOTAL_SIZE < st.currentTotalSize + f.size →
      processOneFile st f =
        { st with alerts := st.alerts ++
            [(f.name, IngestError.QuotaExceeded
                ((MAX_TOTAL_SIZE : Int) - (st.currentTotalSize : Int)))] }) ∧
    (st.currentTotalSize + f.size ≤ MAX_TOTAL_SIZE → f.type ∉ ACCEPTED_FILE_TYPES →
      processOneFile st f =
        { st with alerts := st.alerts ++ [(f.name, IngestError.UnsupportedType)] }) :=
  ⟨processOneFile_quota st f, processOneFile_unsupported st f⟩

/-- A small non-allow-listed candidate that fits the budget. -/
def c2SmallZip : CandidateFile := ⟨"x.zip", 5, "application/zip", some "WA=="⟩

/-- Witness for `c2_budget_checked_before_type` at concrete inputs. -/
theorem c2_budget_checked_before_type_witness :
    processOneFile ⟨[], 0, []⟩ c2File =
        { files := [], currentTotalSize := 0,
          alerts := [("big.zip", IngestError.QuotaExceeded (150 * 1024 * 1024))] } ∧
      processOneFile ⟨[], 0, []⟩ c2SmallZip =
        { files := [], currentTotalSize := 0,
          alerts := [("x.zip", IngestError.UnsupportedType)] } :=
  ⟨(c2_budget_checked_before_type ⟨[], 0, []⟩ c2File).1 (by decide),
   (c2_budget_checked_before_type ⟨[], 0, []⟩ c2SmallZip).2 (by decide) (by decide)⟩

/-- Form values whose cc input consists of a single delimiter: truthy as a
raw string, but parsing to the empty list. -/
def c3Values : FormValues :=
  { source := "QR-something", fromAddr := "a@b.c", toAddr := "t@x.y", cc := ",", bcc := "",
    subject := "Test", emailType := EmailType.html, textBody := "", htmlBody := "",
    autoPrompt := "", templateId := "1" }

/-- Claim C3, counterexample: with cc input `","` the parsed list is empty,
yet the assembled payload still carries the `cc` key (with value `""`),
because the code keys presence on truthiness of the raw input string rather
than on the parsed result. -/
theorem c3_counterexample :
    parseEmails c3Values.cc = "" ∧
      (onSubmit 0 c3Values [] []).payload.cc = some "" := by
  decide

/-- Claim C3, amended: the `cc` (symmetrically `bcc`) key is absent from the
inner payload iff the corresponding raw input string is empty; when the raw
input is non-empty the key is present and holds the parsed, comma-joined
list — which may itself be the empty string, as for an input of delimiters
and whitespace only. -/
theorem c3_cc_bcc_present_iff_raw_nonempty (now : Nat) (v : FormValues)
    (files : List FileWithBase64) (imgs : List HtmlImage) :
    ((onSubmit now v files imgs).payload.cc = none ↔ v.cc = "") ∧
    ((onSubmit now v files imgs).payload.bcc = none ↔ v.bcc = "") ∧
    (v.cc ≠ "" → (onSubmit now v files imgs).payload.cc = some (parseEmails v.cc)) ∧
    (v.bcc ≠ "" → (onSubmit now v files imgs).payload.bcc = some (parseEmails v.bcc)) := by
  simp only [onSubmit_cc, onSubmit_bcc]
  by_cases hcc : v.cc = "" <;> by_cases hbcc : v.bcc = "" <;> simp [hcc, hbcc]

/-- Witness for `c3_cc_bcc_present_iff_raw_nonempty` at concrete inputs. -/
theorem c3_cc_bcc_present_iff_raw_nonempty_witness :
    (onSubmit 0 c3Values [] []).payload.cc = some (parseEmails ",") ∧
      ((onSubmit 0 c3Values [] []).payload.bcc = none ↔ c3Values.bcc = "") :=
  ⟨(c3_cc_bcc_present_iff_raw_nonempty 0 c3Values [] []).2.2.1 (by decide),
   (c3_cc_bcc_present_iff_raw_nonempty 0 c3Values [] []).2.1⟩

/-- Claim C4: after every finite sequence of add-batch, remove and rename
operations starting from the empty session, the sum of the recorded sizes of
the accepted attachments is at most the cap `MAX_TOTAL_SIZE`. -/
theorem c4_cap_invariant (ops : List SessionOp) :
    getTotalFileSize (applyOps ops) ≤ MAX_TOTAL_SIZE := by
  suffices h : ∀ files, getTotalFileSize files ≤ MAX_TOTAL_SIZE →
      getTotalFileSize (ops.foldl applyOp files) ≤ MAX_TOTAL_SIZE by
    exact h [] (by decide)
  induction ops with
  | nil => intro files hle; exact hle
  | cons op rest ih =>
    intro files hle
    exact ih (applyOp files op) (applyOp_le files op hle)

/-- Claim C5: in Text mode the assembled payload's additionalInfo never
carries the `html_images` or `attachment_files` keys, whatever the session's
attachment and image state, and its `isText` flag is true. -/
theorem c5_text_mode_payload (now : Nat) (v : FormValues) (files : List FileWithBase64)
    (imgs : List HtmlImage) :
    (onSubmit now { v with emailType := EmailType.text } files imgs).additionalInfo.html_images
        = none ∧
    (onSubmit now { v with emailType := EmailType.text } files imgs).additionalInfo.attachment_files
        = none ∧
    (onSubmit now { v with emailType := EmailType.text } files imgs).additionalInfo.isText
        = true := by
  refine ⟨?_, ?_, ?_⟩
  · rw [onSubmit_html_images]; simp [emailType_beq_text_text]
  · rw [onSubmit_attachment_files]; simp [emailType_beq_text_text]
  · rw [onSubmit_isText]; simp [emailType_beq_text_text]

/-- Claim C6: in Html and AutoGenerate mode the `html_images` key is present
iff the inline-image collection is non-empty and the `attachment_files` key
is present iff the attachment collection is non-empty, and neither key is
ever emitted holding an empty list. -/
theorem c6_html_auto_conditional_keys (now : Nat) (v : FormValues)
    (files : List FileWithBase64) (imgs : List HtmlImage) :
    ((onSubmit now { v with emailType := EmailType.html } files imgs).additionalInfo.html_images
        = none ↔ imgs = []) ∧
    ((onSubmit now { v with emailType := EmailType.html } files imgs).additionalInfo.attachment_files
        = none ↔ files = []) ∧
    (onSubmit now { v with emailType := EmailType.html } files imgs).additionalInfo.html_images
        ≠ some [] ∧
    (onSubmit now { v with emailType := EmailType.html } files imgs).additionalInfo.attachment_files
        ≠ some [] ∧
    ((onSubmit now { v with emailType := EmailType.autoGenerate } files imgs).additionalInfo.html_images
        = none ↔ imgs = []) ∧
    ((onSubmit now { v with emailType := EmailType.autoGenerate } files imgs).additionalInfo.attachment_files
        = none ↔ files = []) ∧
    (onSubmit now { v with emailType := EmailType.autoGenerate } files imgs).additionalInfo.html_images
        ≠ some [] ∧
    (onSubmit now { v with emailType := EmailType.autoGenerate } files imgs).additionalInfo.attachment_files
        ≠ some [] := by
  simp only [onSubmit_html_images, onSubmit_attachment_files]
  by_cases hi : imgs = [] <;> by_cases hf2 : files = [] <;>
    simp [hi, hf2, List.length_pos, emailType_beq_html_text, emailType_beq_auto_text,
      List.map_eq_nil_iff]

/-- Claim C7: a per-file rejection (over budget, unsupported type, or failed
encode) leaves the attachment list and the running byte total unchanged and
does not affect how the remaining files of the batch are processed; in
particular a failed encode consumes no budget. -/
theorem c7_rejection_isolated (st : IngestState) (f : CandidateFile)
    (rest : List CandidateFile)
    (h : MAX_TOTAL_SIZE < st.currentTotalSize + f.size ∨
         ACCEPTED_FILE_TYPES.contains f.type = false ∨ f.encodeResult = none) :
    (processOneFile st f).files = st.files ∧
    (processOneFile st f).currentTotalSize = st.currentTotalSize ∧
    ((f :: rest).foldl processOneFile st).files = (rest.foldl processOneFile st).files ∧
    ((f :: rest).foldl processOneFile st).currentTotalSize =
      (rest.foldl processOneFile st).currentTotalSize := by
  have hrej := processOneFile_rejected st f h
  have hcongr := foldl_processOneFile_congr rest (processOneFile st f) st hrej.1 hrej.2
  exact ⟨hrej.1, hrej.2, by simpa [List.foldl_cons] using hcongr.1,
    by simpa [List.foldl_cons] using hcongr.2⟩

/-- A candidate whose encode fails. -/
def c7BadFile : CandidateFile := ⟨"broken.pdf", 1000, "application/pdf", none⟩

/-- A well-formed candidate following the failing one in the same batch. -/
def c7GoodFile : CandidateFile := ⟨"ok.pdf", 2000, "application/pdf", some "T0s="⟩

/-- Witness for `c7_rejection_isolated` at concrete inputs. -/
theorem c7_rejection_isolated_witness :
    (processOneFile ⟨[], 0, []⟩ c7BadFile).files = [] ∧
    (processOneFile ⟨[], 0, []⟩ c7BadFile).currentTotalSize = 0 ∧
    (([c7BadFile, c7GoodFile] : List CandidateFile).foldl processOneFile ⟨[], 0, []⟩).files =
      (([c7GoodFile] : List CandidateFile).foldl processOneFile ⟨[], 0, []⟩).files ∧
    (([c7BadFile, c7GoodFile] : List CandidateFile).foldl processOneFile
        ⟨[], 0, []⟩).currentTotalSize =
      (([c7GoodFile] : List CandidateFile).foldl processOneFile ⟨[], 0, []⟩).currentTotalSize :=
  c7_rejection_isolated ⟨[], 0, []⟩ c7BadFile [c7GoodFile] (by decide)

/-- The single registered image of the synthesis scenario. -/
def headerLogoImage : HtmlImage := ⟨"header-logo.png", "aGVhZGVy", "header-logo.png"⟩

set_option maxRecDepth 40000 in
/-- Claim C8: synthesizing from the prompt "needs a header and footer" with
only `header-logo.png` registered yields HTML containing
`cid:img@header-logo.png` (the matched header image) and the default
`cid:img@footer.png` (no footer image registered). -/
theorem c8_synthesizer_scenario :
    strIncludes (generateHtmlFromPrompt "needs a header and footer" [headerLogoImage])
        "cid:img@header-logo.png" = true ∧
      strIncludes (generateHtmlFromPrompt "needs a header and footer" [headerLogoImage])
        "cid:img@footer.png" = true := by
  decide

/-- Claim C9: removing the attachment at a valid index yields exactly the
list with that entry dropped and lowers the running total by exactly its
recorded size; renaming an attachment (or an inline image) rewrites only the
`name` (`filename`) field of that entry, leaving its size, data and
originalName, every other entry, and the running total unchanged; and a
successfully ingested file identical to an entry already present is appended
as an independent second entry, with no deduplication. -/
theorem c9_remove_rename_dedup (files : List FileWithBase64) (i : Nat)
    (h : i < files.length) (newName : String) (imgs : List HtmlImage) (j : Nat)
    (hj : j < imgs.length) (st : IngestState) (f : CandidateFile) (b64 : String)
    (hmem : (⟨f.name, f.size, f.type, b64, f.name⟩ : FileWithBase64) ∈ st.files)
    (henc : f.encodeResult = some b64)
    (hsize : st.currentTotalSize + f.size ≤ MAX_TOTAL_SIZE)
    (htype : f.type ∈ ACCEPTED_FILE_TYPES) :
    removeFile files i = files.take i ++ files.drop (i + 1) ∧
    getTotalFileSize (removeFile files i) + files[i].size = getTotalFileSize files ∧
    updateAttachmentFilename files i newName =
      files.take i ++ { files.get ⟨i, h⟩ with name := newName } :: files.drop (i + 1) ∧
    getTotalFileSize (updateAttachmentFilename files i newName) = getTotalFileSize files ∧
    updateImageFilename imgs j newName =
      imgs.take j ++ { imgs.get ⟨j, hj⟩ with filename := newName } :: imgs.drop (j + 1) ∧
    (processOneFile st f).files = st.files ++ [⟨f.name, f.size, f.type, b64, f.name⟩] := by
  refine ⟨removeFile_eq files i, getTotalFileSize_removeFile files i h,
    updateAttachmentFilename_eq files i newName h, ?_,
    updateImageFilename_eq imgs j newName hj, ?_⟩
  · unfold updateAttachmentFilename
    exact getTotalFileSize_mapWithIndex (fun file => { file with name := newName })
      (fun x => rfl) files 0 i
  · rw [processOneFile_accept st f b64 hsize htype henc]

/-- An attachment used twice in the witness session. -/
def c9File : FileWithBase64 := ⟨"dup.pdf", 100, "application/pdf", "RFVQ", "dup.pdf"⟩

/-- The candidate identical to `c9File`, offered again. -/
def c9Candidate : CandidateFile := ⟨"dup.pdf", 100, "application/pdf", some "RFVQ"⟩

/-- An inline image for the rename part of the witness. -/
def c9Img : HtmlImage := ⟨"logo.png", "TE9HTw==", "logo.png"⟩

/-- Witness for `c9_remove_rename_dedup` at concrete inputs. -/
theorem c9_remove_rename_dedup_witness :
    removeFile [c9File] 0 = [c9File].take 0 ++ [c9File].drop 1 ∧
    getTotalFileSize (removeFile [c9File] 0) + ([c9File] : List FileWithBase64)[0].size =
      getTotalFileSize [c9File] ∧
    updateAttachmentFilename [c9File] 0 "renamed.pdf" =
      [c9File].take 0 ++
        { ([c9File] : List FileWithBase64).get ⟨0, by decide⟩ with name := "renamed.pdf" } ::
          [c9File].drop 1 ∧
    getTotalFileSize (updateAttachmentFilename [c9File] 0 "renamed.pdf") =
      getTotalFileSize [c9File] ∧
    updateImageFilename [c9Img] 0 "renamed.pdf" =
      [c9Img].take 0 ++
        { ([c9Img] : List HtmlImage).get ⟨0, by decide⟩ with filename := "renamed.pdf" } ::
          [c9Img].drop 1 ∧
    (processOneFile ⟨[c9File], 100, []⟩ c9Candidate).files =
      [c9File] ++ [⟨c9Candidate.name, c9Candidate.size, c9Candidate.type, "RFVQ",
        c9Candidate.name⟩] :=
  c9_remove_rename_dedup [c9File] 0 (by decide) "renamed.pdf" [c9Img] 0 (by decide)
    ⟨[c9File], 100, []⟩ c9Candidate "RFVQ" (by decide) (by decide) (by decide) (by decide)

/-- Claim C10: the recipient-list normalisation is idempotent: applying
`parseEmails` to its own output returns that output unchanged. -/
theorem c10_parseEmails_idempotent (s : String) :
    parseEmails (parseEmails s) = parseEmails s := by
  show (⟨parseEmailsChars (parseEmails s).data⟩ : String) = ⟨parseEmailsChars s.data⟩
  exact congrArg String.mk (parseEmailsChars_idem s.data)
